import Mathlib

/-!
Verification of the Steam review ingestion-and-batching pipeline
(src/foo.pyx) against its natural-language specification.

The embedding below translates the Cython source into Lean:

* `Review` is the canonical record (`Review.__init__`'s output shape; the
  raw-to-canonical hashing transform is outside the claims, so pages carry
  canonical records directly).
* `Response` is the decoded JSON envelope of one page
  (`success`, `query_summary.num_reviews`, `query_summary.total_reviews`,
  `reviews`), plus `status_ok` standing for the HTTP status checked by
  `r.raise_for_status()`.
* `nextbatch` embeds `Review_Stream.nextbatch`: the non-2xx status raises
  (modelled `RunErr.requestError`), the `success` check raises a generic
  exception (`RunErr.protocolError`, the spec's taxonomy name), and the
  declared-count assertion raises `AssertionError`
  (also `RunErr.protocolError` per the spec's taxonomy).
* `SplitState` is the attribute record of `Split_Reviews` together with the
  remaining page stream (the `Review_Stream` side: pages are consumed strictly
  sequentially, so the prefetch overlap is unobservable here) and `out`, the
  list of batches handed to `writebatch_task` in file-index order.
* `count_id_frequency`, `getbatch`, `sort_reviews`, `writebatch`, `main_loop`
  and `del_run` (`__del__`) each embed the method of the same name.
  Loops are expressed with an explicit bound where Lean needs one:
  - the inner scan of `sort_reviews` runs while `begin + end < n`, so the
    remaining iteration count is exactly `n - (begin + end)` (`scanEndAux`);
  - the outer loop of `sort_reviews` advances `begin` by at least one per
    iteration and stops once `begin + (begin + 1) ≥ n`, so `n` iterations
    always suffice (`sortLoopAux`);
  - the fetch loop consumes one page per `True` iteration, so
    `pages.length + 1` iterations suffice (`run_loopAux`);
  - the drain loop removes `min per_file len` records per iteration; when
    `per_file = 0` the Python loop does not terminate, which the model
    reports as `RunErr.nonTermination` when its bound runs out.
  Python exceptions are surfaced as an `Option RunErr` alongside the state
  reached when the exception was raised (`writebatch` mutates before its
  assertion, which the model preserves).
* Python string comparison (used by `sorted(key=attrgetter('id'))` and by
  `==` on dates) is code-point lexicographic order, embedded as `charsLe`
  on the character list.
-/

/-- Python string `<=`: lexicographic on code points. -/
def charsLe : List Char → List Char → Bool
  | [], _ => true
  | _ :: _, [] => false
  | a :: as, b :: bs => if a < b then true else if b < a then false else charsLe as bs

def strLe (a b : String) : Bool := charsLe a.data b.data

/-- Canonical record, the output shape of `Review.__init__` (fields in
declaration order; `id`, `author` are hex digests, `date` an ISO date). -/
structure Review where
  id : String
  author : String
  date : String
  hours : Nat
  content : String
  comments : Nat
  source : String
  helpful : Nat
  funny : Nat
  recommended : Bool
deriving DecidableEq, Inhabited

/-- Error taxonomy of the run, per the spec's names: `requestError` is the
`requests.HTTPError` from `raise_for_status()`; `protocolError` covers the
`Exception('bad response')` on a failed envelope and the declared-count
`assert` in `nextbatch`; `assertionError` is the
`assert not self.file_i > self.max_files` in `writebatch`;
`nonTermination` marks a loop the Python program would never leave. -/
inductive RunErr
  | requestError
  | protocolError
  | assertionError
  | nonTermination
deriving DecidableEq

/-- Decoded response envelope of one page request. -/
structure Response where
  status_ok : Bool
  success : Bool
  num_reviews : Nat
  total_reviews : Nat
  reviews : List Review
deriving DecidableEq

/-- The envelope of a page with no records (also used when the modelled
stream is exhausted: the live API always answers, eventually with an empty
page, which is the EOF signal). -/
def emptyPage : Response :=
  { status_ok := true, success := true, num_reviews := 0, total_reviews := 0, reviews := [] }

/-- `Review_Stream.nextbatch`: `r.raise_for_status()`, then the `success`
check, then `assert num_reviews == len(reviews)`, then return the page's
records (the prefetch of the following page is not observable here). -/
def nextbatch (r : Response) : Except RunErr (List Review) :=
  if r.status_ok = false then .error .requestError
  else if r.success = false then .error .protocolError
  else if r.num_reviews ≠ r.reviews.length then .error .protocolError
  else .ok r.reviews

/-- One step of the duplicate table: `if Id in self.ids: self.ids[Id] += 1
else: self.ids[Id] = 0` on an insertion-ordered association list. -/
def observe : List (String × Nat) → String → List (String × Nat)
  | [], i => [(i, 0)]
  | (k, v) :: rest, i =>
      if k = i then (k, v + 1) :: rest else (k, v) :: observe rest i

/-- `Split_Reviews.count_id_frequency`. -/
def count_id_frequency (reviews : List Review) (ids : List (String × Nat)) :
    List (String × Nat) :=
  reviews.foldl (fun m r => observe m r.id) ids

/-- The attribute record of `Split_Reviews`, plus the remaining page stream
and the batches dispatched to `writebatch_task` in file-index order. -/
structure SplitState where
  steamid : Nat
  reviews : List Review
  ids : List (String × Nat)
  total : Int
  file_i : Nat
  per_file : Nat
  max_files : Nat
  eof : Bool
  flushed : Bool
  pages : List Response
  out : List (List Review)
deriving DecidableEq

/-- `Split_Reviews.__init__` (C `bint` attributes are zero-initialised,
hence `flushed := false`). -/
def initState (steamid per_file max_files : Nat) (pages : List Response) : SplitState :=
  { steamid := steamid, reviews := [], ids := [], total := 0, file_i := 0,
    per_file := per_file, max_files := max_files, eof := false, flushed := false,
    pages := pages, out := [] }

/-- The state mutations of a non-`eof` `getbatch` call that received `revs`:
`self.total -= len(reviews)`, `self.count_id_frequency(reviews)`,
`self.reviews += reviews`, `if len(reviews) == 0: self.eof = True`, with the
consumed page removed from the modelled stream. -/
def getbatchUpd (s : SplitState) (revs : List Review) : SplitState :=
  { s with
    pages := s.pages.tail,
    total := s.total - revs.length,
    ids := count_id_frequency revs s.ids,
    reviews := s.reviews ++ revs,
    eof := decide (revs.length = 0) }

/-- `Split_Reviews.getbatch`: return `False` at once when `eof` is set;
otherwise consume the prefetched page, decrement `total`, feed the duplicate
table, append to the buffer, set `eof` on an empty page, return `not eof`. -/
def getbatch (s : SplitState) : Except RunErr (Bool × SplitState) :=
  if s.eof then .ok (false, s)
  else
    match nextbatch (s.pages.headD emptyPage) with
    | .error e => .error e
    | .ok revs => .ok (!decide (revs.length = 0), getbatchUpd s revs)

/-- The element access `self.reviews[i]` (always in bounds where the source
performs it; total here via a default). -/
def dateAt (l : List Review) (i : Nat) : String := (l.getD i default).date

/-- The slice assignment
`self.reviews[begin:end] = sorted(self.reviews[begin:end], key=attrgetter('id'))`:
a stable sort of the slice by `id`, spliced back in place. -/
def sortSlice (l : List Review) (b e : Nat) : List Review :=
  l.take b ++
    List.insertionSort (fun x y => strLe x.id y.id = true) ((l.drop b).take (e - b)) ++
    l.drop e

/-- The inner scan of `sort_reviews`:
`while begin + end < n and self.reviews[end].date == self.reviews[begin].date:
end += 1`. The first argument counts the iterations still allowed by the
bound `begin + end < n`, which is exactly `n - (begin + end)`. -/
def scanEndAux (l : List Review) (b : Nat) : Nat → Nat → Nat
  | 0, e => e
  | k + 1, e => if dateAt l e = dateAt l b then scanEndAux l b k (e + 1) else e

def scanEnd (l : List Review) (n b e : Nat) : Nat := scanEndAux l b (n - (b + e)) e

/-- The outer loop of `sort_reviews`: at its top `end = begin + 1`, so the
guard `begin + end < n` reads `begin + (begin + 1) < n`; after a pass,
`begin := end` (the scan's result) and `end := begin + 1` again. Each pass
increases `begin` by at least one, so `n` passes always suffice; the first
argument is that bound. -/
def sortLoopAux (n : Nat) : Nat → List Review → Nat → List Review
  | 0, l, _ => l
  | k + 1, l, b =>
      if b + (b + 1) < n then
        sortLoopAux n k (sortSlice l b (scanEnd l n b (b + 1))) (scanEnd l n b (b + 1))
      else l

/-- `Split_Reviews.sort_reviews(n)`: starting from `begin = 0, end = 1`. -/
def sort_reviews (l : List Review) (n : Nat) : List Review := sortLoopAux n n l 0

/-- `Split_Reviews.writebatch`: increment `file_i`, take
`writeme = min(per_file, len(reviews))`, sort that prefix, dispatch it as the
next output batch, delete it from the buffer; then, when `max_files` is
nonzero and reached, `assert not self.file_i > self.max_files` (its failure
is the returned `assertionError`; the write and the deletion have already
happened) and set `eof`. -/
def writebatch (s : SplitState) : SplitState × Option RunErr :=
  let fi := s.file_i + 1
  let writeme := min s.per_file s.reviews.length
  let sorted := sort_reviews s.reviews writeme
  let s' : SplitState :=
    { s with file_i := fi, out := s.out ++ [sorted.take writeme],
             reviews := sorted.drop writeme }
  if s.max_files ≠ 0 ∧ s.max_files ≤ fi then
    if s.max_files < fi then (s', some .assertionError)
    else ({ s' with eof := true }, none)
  else (s', none)

/-- The fetch/accumulate loop of `main_loop`:
`while await self.getbatch(): if len(self.reviews) >= self.per_file:
self.writebatch(writejobs)`. A `True` iteration consumes one page, so
`pages.length + 1` iterations suffice; the first argument is that bound. -/
def run_loopAux : Nat → SplitState → SplitState × Option RunErr
  | 0, s => (s, some .nonTermination)
  | k + 1, s =>
      match getbatch s with
      | .error e => (s, some e)
      | .ok (false, s') => (s', none)
      | .ok (true, s') =>
          if s'.per_file ≤ s'.reviews.length then
            match writebatch s' with
            | (s'', some e) => (s'', some e)
            | (s'', none) => run_loopAux k s''
          else run_loopAux k s'

def run_loop (s : SplitState) : SplitState × Option RunErr :=
  run_loopAux (s.pages.length + 1) s

/-- The `finally` drain of `main_loop`:
`while len(self.reviews): self.writebatch(writejobs)`. Each iteration
removes `min(per_file, len)` records, so when `per_file ≥ 1` the buffer
length bounds the iteration count; with `per_file = 0` the Python loop
never terminates, reported as `nonTermination` when the bound runs out. -/
def drainAux : Nat → SplitState → SplitState × Option RunErr
  | 0, s => if s.reviews.isEmpty then (s, none) else (s, some .nonTermination)
  | k + 1, s =>
      if s.reviews.isEmpty then (s, none)
      else
        match writebatch s with
        | (s', some e) => (s', some e)
        | (s', none) => drainAux k s'

/-- The seeding line
`self.total = self.steam.response_obj['query_summary']['total_reviews'] - len(self.reviews)`
run right after the first `getbatch` (whose response is the head page). -/
def seedTotal (s0 sa : SplitState) : SplitState :=
  { sa with total := ((s0.pages.headD emptyPage).total_reviews : Int) - sa.reviews.length }

/-- `Split_Reviews.main_loop`: first `getbatch`, then seed `total` from the
first page, then the fetch loop; the `finally` drain runs on every exit
path, and an exception raised by the drain replaces one raised by the body
(Python `finally` semantics). -/
def main_loop (s0 : SplitState) : SplitState × Option RunErr :=
  let body : SplitState × Option RunErr :=
    match getbatch s0 with
    | .error e => (s0, some e)
    | .ok (_, sa) => run_loop (seedTotal s0 sa)
  let drained := drainAux body.1.reviews.length body.1
  (drained.1, match drained.2 with | some e => some e | none => body.2)

/-- The warnings emitted by `Split_Reviews.__del__`: a nonzero `total`, then
one warning per id with a nonzero duplicate counter. -/
def del_reports (s : SplitState) : List String :=
  (if s.total ≠ 0 then ["more reviews than expected: " ++ toString (-s.total)] else []) ++
    (s.ids.filter (fun p => p.2 ≠ 0)).map
      (fun p => "id " ++ p.1 ++ " has " ++ toString p.2 ++ " duplicates")

/-- `Split_Reviews.__del__` as a state transformer: it reports and mutates
nothing (in particular it neither reads nor writes `flushed`). -/
def del_run (s : SplitState) : SplitState × List String := (s, del_reports s)

/-- The required batch order: `date` descending; within a maximal run of
equal `date`, `id` ascending. Equivalently, adjacent-pairwise: the next
date is `≤` the current one, and on equal dates the ids are `≤`-ordered. -/
def batchOrderedB : List Review → Bool
  | [] => true
  | [_] => true
  | a :: b :: rest =>
      (strLe b.date a.date && (!(a.date = b.date : Bool) || strLe a.id b.id)) &&
        batchOrderedB (b :: rest)

def batchOrdered (l : List Review) : Prop := batchOrderedB l = true

instance (l : List Review) : Decidable (batchOrdered l) := by
  unfold batchOrdered; infer_instance

/-- A well-formed page: success status, success envelope, truthful count. -/
def Good (p : Response) : Prop :=
  p.status_ok = true ∧ p.success = true ∧ p.num_reviews = p.reviews.length

instance (p : Response) : Decidable (Good p) := by
  unfold Good; infer_instance

/-- The records a run starting at a given page stream appends to the buffer:
every page up to and excluding the first empty one (the EOF signal). -/
def consumedReviews : List Response → List Review
  | [] => []
  | p :: ps => if p.reviews = [] then [] else p.reviews ++ consumedReviews ps

/-- Shorthand for building a concrete canonical record. -/
def mkRev (i d : String) : Review :=
  { id := i, author := "a", date := d, hours := 1, content := "c", comments := 0,
    source := "steam", helpful := 0, funny := 0, recommended := true }

/-- A page whose envelope is well-formed. -/
def goodPage (tr : Nat) (revs : List Review) : Response :=
  { status_ok := true, success := true, num_reviews := revs.length,
    total_reviews := tr, reviews := revs }

/-- A single page of three records, dates descending on arrival, whose
equal-date tail run carries ids out of ascending order. -/
def c1reviews : List Review := [mkRev "z" "2", mkRev "c" "1", mkRev "a" "1"]

def c1pages : List Response := [goodPage 3 c1reviews, emptyPage]

/-- Four equal-date records delivered over two full pages of two, for a run
configured with `per_file = 2, max_files = 1`. -/
def c2revs : List Review :=
  [mkRev "a" "1", mkRev "b" "1", mkRev "c" "1", mkRev "d" "1"]

def c2pages : List Response :=
  [goodPage 5 (c2revs.take 2), goodPage 5 (c2revs.drop 2), emptyPage]

/-- Six records on one page, for a run with `per_file = 2, max_files = 1`:
the drain writes two further batches past the cap and then dies on the
`writebatch` assertion with two records still buffered. -/
def c3revs : List Review :=
  [mkRev "a" "1", mkRev "b" "1", mkRev "c" "1", mkRev "d" "1",
   mkRev "e" "1", mkRev "f" "1"]

def c3pages : List Response := [goodPage 6 c3revs, emptyPage]

/-- A finished run state whose `total` is nonzero, so `__del__` has
something to report. -/
def c4state : SplitState := { initState 1 5 0 [] with total := 1 }

/-- The spec's end-to-end scenario: declared `total_reviews = 5`, three
records actually delivered. -/
def c9pages : List Response := [goodPage 5 (c3revs.take 3), emptyPage]

/-- A response whose transport status is non-success. -/
def c7resp : Response :=
  { status_ok := false, success := true, num_reviews := 0, total_reviews := 0, reviews := [] }

/-- A run state with the end-of-stream flag already set. -/
def c10state : SplitState :=
  { initState 1 5 0 [goodPage 9 c1reviews] with eof := true }

/-- A good two-page stream used to instantiate the universally quantified
theorems. -/
def w3pages : List Response := [goodPage 2 (c3revs.take 2), emptyPage]

/-! ### Properties of the prefix sort -/

theorem le_scanEndAux (l : List Review) (b : Nat) :
    ∀ k e, e ≤ scanEndAux l b k e := by
  intro k
  induction k with
  | zero => intro e; simp [scanEndAux]
  | succ k ih =>
      intro e
      simp only [scanEndAux]
      split
      · exact Nat.le_trans (Nat.le_succ e) (ih (e + 1))
      · exact Nat.le_refl e

theorem scanEndAux_le (l : List Review) (b : Nat) :
    ∀ k e, scanEndAux l b k e ≤ e + k := by
  intro k
  induction k with
  | zero => intro e; simp [scanEndAux]
  | succ k ih =>
      intro e
      simp only [scanEndAux]
      split
      · exact Nat.le_trans (ih (e + 1)) (by omega)
      · omega

theorem le_scanEnd (l : List Review) (n b e : Nat) : e ≤ scanEnd l n b e :=
  le_scanEndAux l b _ e

theorem scanEnd_le (l : List Review) (n b e : Nat) (h : b + e ≤ n) :
    b + scanEnd l n b e ≤ n := by
  have := scanEndAux_le l b (n - (b + e)) e
  unfold scanEnd
  omega

theorem sortSlice_perm (l : List Review) (b e : Nat) (h : b ≤ e) :
    (sortSlice l b e).Perm l := by
  unfold sortSlice
  have hsplit : (l.drop b).take (e - b) ++ l.drop e = l.drop b := by
    have hd : l.drop e = (l.drop b).drop (e - b) := by
      rw [List.drop_drop]
      congr 1
      omega
    rw [hd, List.take_append_drop]
  have hS := List.perm_insertionSort (fun x y => strLe x.id y.id = true)
    ((l.drop b).take (e - b))
  have h3 : ((l.take b ++ List.insertionSort (fun x y => strLe x.id y.id = true)
      ((l.drop b).take (e - b))) ++ l.drop e).Perm
      ((l.take b ++ (l.drop b).take (e - b)) ++ l.drop e) :=
    List.Perm.append_right _ (List.Perm.append_left _ hS)
  have h4 : (l.take b ++ (l.drop b).take (e - b)) ++ l.drop e = l := by
    rw [List.append_assoc, hsplit, List.take_append_drop]
  rw [h4] at h3
  exact h3

theorem sortSlice_length (l : List Review) (b e : Nat) (h : b ≤ e) :
    (sortSlice l b e).length = l.length :=
  (sortSlice_perm l b e h).length_eq

theorem sortSlice_drop (l : List Review) (b e n : Nat) (hbe : b ≤ e) (hen : e ≤ n) :
    (sortSlice l b e).drop n = l.drop n := by
  unfold sortSlice
  rw [List.drop_append_eq_append_drop]
  have hP : (l.take b ++ List.insertionSort (fun x y => strLe x.id y.id = true)
      ((l.drop b).take (e - b))).length = min e l.length := by
    simp only [List.length_append, List.length_insertionSort, List.length_take,
      List.length_drop]
    omega
  have h0 : List.drop n (l.take b ++ List.insertionSort (fun x y => strLe x.id y.id = true)
      ((l.drop b).take (e - b))) = [] :=
    List.drop_eq_nil_of_le (by rw [hP]; omega)
  rw [h0, List.nil_append, List.drop_drop]
  by_cases hl : e ≤ l.length
  · congr 1
    rw [hP]
    omega
  · push_neg at hl
    have h1 : l.length ≤ e + (n - (l.take b ++ List.insertionSort
        (fun x y => strLe x.id y.id = true) ((l.drop b).take (e - b))).length) := by
      omega
    rw [List.drop_eq_nil_of_le h1, List.drop_eq_nil_of_le (show l.length ≤ n by omega)]

theorem sortLoopAux_perm (n : Nat) : ∀ k l b, (sortLoopAux n k l b).Perm l := by
  intro k
  induction k with
  | zero => intro l b; simp [sortLoopAux]
  | succ k ih =>
      intro l b
      simp only [sortLoopAux]
      split
      · exact (ih _ _).trans
          (sortSlice_perm l b _ (Nat.le_trans (Nat.le_succ b) (le_scanEnd l n b (b + 1))))
      · exact List.Perm.refl l

theorem sortLoopAux_drop (n : Nat) : ∀ k l b, (sortLoopAux n k l b).drop n = l.drop n := by
  intro k
  induction k with
  | zero => intro l b; simp [sortLoopAux]
  | succ k ih =>
      intro l b
      simp only [sortLoopAux]
      split
      · rename_i hguard
        have hbe : b ≤ scanEnd l n b (b + 1) :=
          Nat.le_trans (Nat.le_succ b) (le_scanEnd l n b (b + 1))
        have hen : scanEnd l n b (b + 1) ≤ n := by
          have := scanEnd_le l n b (b + 1) (by omega)
          omega
        rw [ih, sortSlice_drop l b _ n hbe hen]
      · rfl

theorem sort_reviews_perm (l : List Review) (n : Nat) : (sort_reviews l n).Perm l :=
  sortLoopAux_perm n n l 0

theorem sort_reviews_length (l : List Review) (n : Nat) :
    (sort_reviews l n).length = l.length :=
  (sort_reviews_perm l n).length_eq

theorem sort_reviews_drop (l : List Review) (n : Nat) :
    (sort_reviews l n).drop n = l.drop n :=
  sortLoopAux_drop n n l 0

theorem sort_reviews_take_perm (l : List Review) (n : Nat) :
    ((sort_reviews l n).take n).Perm (l.take n) := by
  have hperm := sort_reviews_perm l n
  have hsplit : (sort_reviews l n).take n ++ l.drop n = sort_reviews l n := by
    rw [← sort_reviews_drop l n, List.take_append_drop]
  rw [← List.perm_append_right_iff (l.drop n), hsplit, List.take_append_drop]
  exact hperm

/-! ### Properties of `writebatch`, `getbatch`, `nextbatch` and the drain -/

theorem writebatch_const (s : SplitState) :
    (writebatch s).1.pages = s.pages ∧ (writebatch s).1.total = s.total ∧
    (writebatch s).1.per_file = s.per_file ∧ (writebatch s).1.max_files = s.max_files ∧
    (writebatch s).1.ids = s.ids ∧ (writebatch s).1.steamid = s.steamid ∧
    (writebatch s).1.file_i = s.file_i + 1 ∧ (writebatch s).1.flushed = s.flushed := by
  simp only [writebatch]
  split
  · split <;> simp
  · simp

theorem writebatch_reviews (s : SplitState) :
    (writebatch s).1.reviews = s.reviews.drop (min s.per_file s.reviews.length) := by
  simp only [writebatch]
  split
  · split <;> simp [sort_reviews_drop]
  · simp [sort_reviews_drop]

theorem writebatch_out (s : SplitState) :
    (writebatch s).1.out = s.out ++
      [(sort_reviews s.reviews (min s.per_file s.reviews.length)).take
        (min s.per_file s.reviews.length)] := by
  simp only [writebatch]
  split
  · split <;> simp
  · simp

theorem writebatch_join_perm (s : SplitState) :
    ((writebatch s).1.out.flatten ++ (writebatch s).1.reviews).Perm
      (s.out.flatten ++ s.reviews) := by
  rw [writebatch_out, writebatch_reviews]
  rw [List.flatten_append, List.flatten_cons, List.flatten_nil, List.append_nil]
  rw [← sort_reviews_drop s.reviews (min s.per_file s.reviews.length)]
  rw [List.append_assoc, List.take_append_drop]
  exact List.Perm.append_left _ (sort_reviews_perm _ _)

theorem writebatch_mf0 (s : SplitState) (h : s.max_files = 0) :
    (writebatch s).2 = none ∧ (writebatch s).1.eof = s.eof := by
  simp [writebatch, h]

theorem writebatch_reviews_length (s : SplitState) :
    (writebatch s).1.reviews.length =
      s.reviews.length - min s.per_file s.reviews.length := by
  rw [writebatch_reviews, List.length_drop]

theorem nextbatch_ok (r : Response) (revs : List Review) (h : nextbatch r = .ok revs) :
    revs = r.reviews ∧ r.status_ok = true ∧ r.success = true ∧
      r.num_reviews = r.reviews.length := by
  unfold nextbatch at h
  split at h
  · cases h
  · split at h
    · cases h
    · split at h
      · cases h
      · cases h
        rename_i h1 h2 h3
        simp only [Bool.not_eq_false] at h1 h2
        simp only [ne_eq, Decidable.not_not] at h3
        exact ⟨rfl, h1, h2, h3⟩

theorem nextbatch_good (r : Response) (h : Good r) : nextbatch r = .ok r.reviews := by
  obtain ⟨h1, h2, h3⟩ := h
  simp [nextbatch, h1, h2, h3]

theorem getbatch_of_eof (s : SplitState) (h : s.eof = true) : getbatch s = .ok (false, s) := by
  simp [getbatch, h]

theorem getbatch_ok_upd (s : SplitState) (revs : List Review) (he : s.eof = false)
    (h : nextbatch (s.pages.headD emptyPage) = .ok revs) :
    getbatch s = .ok (!decide (revs.length = 0), getbatchUpd s revs) := by
  rw [List.headD_eq_head?] at h
  simp [getbatch, he, h]

theorem getbatch_err (s : SplitState) (e : RunErr) (he : s.eof = false)
    (h : nextbatch (s.pages.headD emptyPage) = .error e) :
    getbatch s = .error e := by
  rw [List.headD_eq_head?] at h
  simp [getbatch, he, h]

theorem drainAux_consume : ∀ (k : Nat) (s : SplitState),
    (drainAux k s).1.pages = s.pages ∧
    ((drainAux k s).1.out.flatten ++ (drainAux k s).1.reviews).Perm
      (s.out.flatten ++ s.reviews) ∧
    (drainAux k s).1.total = s.total ∧
    (drainAux k s).1.per_file = s.per_file ∧
    (drainAux k s).1.max_files = s.max_files ∧
    ((drainAux k s).2 = none → (drainAux k s).1.reviews = []) := by
  intro k
  induction k with
  | zero =>
      intro s
      simp only [drainAux]
      split
      · rename_i hemp
        simp only [List.isEmpty_iff] at hemp
        simp [hemp]
      · simp
  | succ k ih =>
      intro s
      simp only [drainAux]
      split
      · rename_i hemp
        simp only [List.isEmpty_iff] at hemp
        simp [hemp]
      · rcases hw : writebatch s with ⟨s', e'⟩
        have hc := writebatch_const s
        have hp := writebatch_join_perm s
        rw [hw] at hc hp
        cases e' with
        | some e => simp only [hw]; exact ⟨hc.1, hp, hc.2.1, hc.2.2.1, hc.2.2.2.1, by simp⟩
        | none =>
            simp only [hw]
            obtain ⟨ih1, ih2, ih3, ih4, ih5, ih6⟩ := ih s'
            exact ⟨ih1.trans hc.1, ih2.trans hp, ih3.trans hc.2.1,
              ih4.trans hc.2.2.1, ih5.trans hc.2.2.2.1, ih6⟩

theorem drainAux_good : ∀ (k : Nat) (s : SplitState), 1 ≤ s.per_file → s.max_files = 0 →
    s.reviews.length ≤ k → (drainAux k s).2 = none := by
  intro k
  induction k with
  | zero =>
      intro s _ _ hlen
      have : s.reviews = [] := List.eq_nil_of_length_eq_zero (by omega)
      simp [drainAux, this]
  | succ k ih =>
      intro s hpf hmf hlen
      simp only [drainAux]
      split
      · rfl
      · rename_i hemp
        simp only [List.isEmpty_iff] at hemp
        rcases hw : writebatch s with ⟨s', e'⟩
        have hc := writebatch_const s
        have hrl := writebatch_reviews_length s
        have hnone := (writebatch_mf0 s hmf).1
        rw [hw] at hc hrl hnone
        subst hnone
        simp only
        apply ih s'
        · rw [hc.2.2.1]; exact hpf
        · rw [hc.2.2.2.1]; exact hmf
        · rw [hrl]
          have : s.reviews.length ≠ 0 := by
            intro h0
            exact hemp (List.eq_nil_of_length_eq_zero h0)
          omega

/-! ### Properties of the fetch/accumulate loop -/

theorem getbatchUpd_fields (s : SplitState) (revs : List Review) :
    (getbatchUpd s revs).pages = s.pages.tail ∧ (getbatchUpd s revs).out = s.out ∧
    (getbatchUpd s revs).reviews = s.reviews ++ revs ∧
    (getbatchUpd s revs).per_file = s.per_file ∧
    (getbatchUpd s revs).max_files = s.max_files ∧
    (getbatchUpd s revs).total = s.total - revs.length ∧
    (getbatchUpd s revs).eof = decide (revs.length = 0) := by
  simp [getbatchUpd]

theorem run_loopAux_succ_err (k : Nat) (s : SplitState) (e : RunErr)
    (hg : getbatch s = .error e) : run_loopAux (k + 1) s = (s, some e) := by
  simp only [run_loopAux, hg]

theorem run_loopAux_succ_false (k : Nat) (s s1 : SplitState)
    (hg : getbatch s = .ok (false, s1)) : run_loopAux (k + 1) s = (s1, none) := by
  simp only [run_loopAux, hg]

theorem run_loopAux_succ_true (k : Nat) (s s1 : SplitState)
    (hg : getbatch s = .ok (true, s1)) :
    run_loopAux (k + 1) s =
      if s1.per_file ≤ s1.reviews.length then
        match writebatch s1 with
        | (s2, some e) => (s2, some e)
        | (s2, none) => run_loopAux k s2
      else run_loopAux k s1 := by
  simp only [run_loopAux, hg]

theorem run_loopAux_consume : ∀ (k : Nat) (s : SplitState), ∃ j,
    (run_loopAux k s).1.pages = s.pages.drop j ∧
    ((run_loopAux k s).1.out.flatten ++ (run_loopAux k s).1.reviews).Perm
      (s.out.flatten ++ s.reviews ++ (s.pages.take j).flatMap Response.reviews) ∧
    (run_loopAux k s).1.per_file = s.per_file ∧
    (run_loopAux k s).1.max_files = s.max_files := by
  intro k
  induction k with
  | zero => intro s; exact ⟨0, by simp [run_loopAux]⟩
  | succ k ih =>
      intro s
      by_cases he : s.eof = true
      · rw [run_loopAux_succ_false k s s (getbatch_of_eof s he)]
        exact ⟨0, by simp⟩
      · have he' : s.eof = false := by simp only [Bool.not_eq_true] at he; exact he
        cases hnb : nextbatch (s.pages.headD emptyPage) with
        | error e =>
            rw [run_loopAux_succ_err k s e (getbatch_err s e he' hnb)]
            exact ⟨0, by simp⟩
        | ok revs =>
            have hg := getbatch_ok_upd s revs he' hnb
            by_cases hrev : revs.length = 0
            · have hrnil : revs = [] := List.eq_nil_of_length_eq_zero hrev
              have hb : (!decide (revs.length = 0)) = false := by simp [hrev]
              rw [hb] at hg
              rw [run_loopAux_succ_false k s _ hg]
              obtain ⟨hp, ho, hr, hpf, hmf, _, _⟩ := getbatchUpd_fields s revs
              refine ⟨1, ?_, ?_, hpf, hmf⟩
              · rw [hp, List.drop_one]
              · rw [ho, hr, hrnil, List.append_nil]
                have htk : (s.pages.take 1).flatMap Response.reviews = [] := by
                  cases hps : s.pages with
                  | nil => simp
                  | cons p ps =>
                      rw [hps] at hnb
                      have := (nextbatch_ok p revs (by simpa using hnb)).1
                      rw [hrnil] at this
                      simp [← this]
                rw [htk, List.append_nil]
            · have hb : (!decide (revs.length = 0)) = true := by simp [hrev]
              rw [hb] at hg
              obtain ⟨p, ps, hpages⟩ : ∃ p ps, s.pages = p :: ps := by
                cases hps : s.pages with
                | nil =>
                    exfalso
                    rw [hps] at hnb
                    have : revs = emptyPage.reviews := (nextbatch_ok _ revs (by simpa using hnb)).1
                    rw [this] at hrev
                    simp [emptyPage] at hrev
                | cons p ps => exact ⟨p, ps, rfl⟩
              have hrevp : revs = p.reviews := by
                rw [hpages] at hnb
                exact (nextbatch_ok p revs (by simpa using hnb)).1
              obtain ⟨hp1, ho1, hr1, hpf1, hmf1, _, _⟩ := getbatchUpd_fields s revs
              rw [run_loopAux_succ_true k s _ hg]
              by_cases hthr : (getbatchUpd s revs).per_file ≤ (getbatchUpd s revs).reviews.length
              · rw [if_pos hthr]
                rcases hw : writebatch (getbatchUpd s revs) with ⟨s2, e2⟩
                have hc := writebatch_const (getbatchUpd s revs)
                rw [hw] at hc
                have hperm2 := writebatch_join_perm (getbatchUpd s revs)
                rw [hw] at hperm2
                cases e2 with
                | some e =>
                    simp only
                    refine ⟨1, ?_, ?_, ?_, ?_⟩
                    · rw [hc.1, hp1, List.drop_one]
                    · have : (s.pages.take 1).flatMap Response.reviews = p.reviews := by
                        rw [hpages]; simp
                      rw [this]
                      refine hperm2.trans ?_
                      rw [ho1, hr1, hrevp]
                      simp [List.append_assoc]
                    · rw [hc.2.2.1, hpf1]
                    · rw [hc.2.2.2.1, hmf1]
                | none =>
                    simp only
                    obtain ⟨j, ihp, ihperm, ihpf, ihmf⟩ := ih s2
                    refine ⟨j + 1, ?_, ?_, ?_, ?_⟩
                    · rw [ihp, hc.1, hp1, hpages]
                      simp
                    · refine ihperm.trans ?_
                      have hX : (s2.pages.take j).flatMap Response.reviews =
                          (ps.take j).flatMap Response.reviews := by
                        rw [hc.1, hp1, hpages]
                        simp
                      rw [hX]
                      refine (List.Perm.append_right _ hperm2).trans ?_
                      rw [ho1, hr1, hrevp, hpages]
                      simp [List.append_assoc]
                    · rw [ihpf, hc.2.2.1, hpf1]
                    · rw [ihmf, hc.2.2.2.1, hmf1]
              · rw [if_neg hthr]
                obtain ⟨j, ihp, ihperm, ihpf, ihmf⟩ := ih (getbatchUpd s revs)
                refine ⟨j + 1, ?_, ?_, ?_, ?_⟩
                · rw [ihp, hp1, hpages]
                  simp
                · refine ihperm.trans ?_
                  rw [ho1, hr1, hp1, hpages]
                  simp [hrevp, List.append_assoc]
                · rw [ihpf, hpf1]
                · rw [ihmf, hmf1]

theorem consumedReviews_cons_nil (p : Response) (ps : List Response)
    (h : p.reviews = []) : consumedReviews (p :: ps) = [] := by
  simp [consumedReviews, h]

theorem consumedReviews_cons (p : Response) (ps : List Response)
    (h : p.reviews ≠ []) : consumedReviews (p :: ps) = p.reviews ++ consumedReviews ps := by
  simp [consumedReviews, h]

theorem run_loopAux_good : ∀ (k : Nat) (s : SplitState),
    (∀ p ∈ s.pages, Good p) → s.max_files = 0 → s.eof = false → s.pages.length < k →
    (run_loopAux k s).2 = none ∧
    ((run_loopAux k s).1.out.flatten ++ (run_loopAux k s).1.reviews).Perm
      (s.out.flatten ++ s.reviews ++ consumedReviews s.pages) ∧
    (run_loopAux k s).1.total = s.total - (consumedReviews s.pages).length ∧
    (run_loopAux k s).1.per_file = s.per_file ∧
    (run_loopAux k s).1.max_files = 0 := by
  intro k
  induction k with
  | zero => intro s _ _ _ hlt; omega
  | succ k ih =>
      intro s hgood hmf he hlt
      cases hps : s.pages with
      | nil =>
          have hnb : nextbatch (s.pages.headD emptyPage) = .ok [] := by
            rw [hps]
            simp [nextbatch, emptyPage]
          have hg := getbatch_ok_upd s [] he hnb
          have hb : (!decide (([] : List Review).length = 0)) = false := by simp
          rw [hb] at hg
          rw [run_loopAux_succ_false k s _ hg]
          obtain ⟨hp1, ho1, hr1, hpf1, hmf1, ht1, _⟩ := getbatchUpd_fields s []
          refine ⟨rfl, ?_, ?_, hpf1, by rw [hmf1]; exact hmf⟩
          · rw [ho1, hr1]
            simp [consumedReviews]
          · rw [ht1]
            simp [consumedReviews]
      | cons p ps =>
          have hgp : Good p := hgood p (by rw [hps]; exact List.mem_cons_self p ps)
          have hnb : nextbatch (s.pages.headD emptyPage) = .ok p.reviews := by
            rw [hps]
            simpa using nextbatch_good p hgp
          by_cases hpr : p.reviews.length = 0
          · have hrnil : p.reviews = [] := List.eq_nil_of_length_eq_zero hpr
            have hg := getbatch_ok_upd s p.reviews he hnb
            have hb : (!decide (p.reviews.length = 0)) = false := by simp [hpr]
            rw [hb] at hg
            rw [run_loopAux_succ_false k s _ hg]
            obtain ⟨hp1, ho1, hr1, hpf1, hmf1, ht1, _⟩ := getbatchUpd_fields s p.reviews
            refine ⟨rfl, ?_, ?_, hpf1, by rw [hmf1]; exact hmf⟩
            · rw [ho1, hr1, consumedReviews_cons_nil p ps hrnil, hrnil]
              simp
            · rw [ht1, consumedReviews_cons_nil p ps hrnil, hrnil]
          · have hprne : p.reviews ≠ [] := by
              intro h0
              exact hpr (by rw [h0]; rfl)
            have hg := getbatch_ok_upd s p.reviews he hnb
            have hb : (!decide (p.reviews.length = 0)) = true := by simp [hpr]
            rw [hb] at hg
            obtain ⟨hp1, ho1, hr1, hpf1, hmf1, ht1, he1⟩ := getbatchUpd_fields s p.reviews
            have hmf1' : (getbatchUpd s p.reviews).max_files = 0 := by rw [hmf1]; exact hmf
            have he1' : (getbatchUpd s p.reviews).eof = false := by
              rw [he1]
              simp [hpr]
            have hpag1 : (getbatchUpd s p.reviews).pages = ps := by rw [hp1, hps]; rfl
            have hgood1 : ∀ q ∈ (getbatchUpd s p.reviews).pages, Good q := by
              rw [hpag1]
              intro q hq
              exact hgood q (by rw [hps]; exact List.mem_cons_of_mem p hq)
            have hlt1 : (getbatchUpd s p.reviews).pages.length < k := by
              rw [hpag1]
              rw [hps] at hlt
              simpa using Nat.lt_of_succ_lt_succ hlt
            rw [run_loopAux_succ_true k s _ hg]
            by_cases hthr : (getbatchUpd s p.reviews).per_file ≤
                (getbatchUpd s p.reviews).reviews.length
            · rw [if_pos hthr]
              rcases hw : writebatch (getbatchUpd s p.reviews) with ⟨s2, e2⟩
              have hwmf := writebatch_mf0 (getbatchUpd s p.reviews) hmf1'
              rw [hw] at hwmf
              obtain ⟨he2, heof2⟩ := hwmf
              subst he2
              simp only
              have hc := writebatch_const (getbatchUpd s p.reviews)
              rw [hw] at hc
              have hperm2 := writebatch_join_perm (getbatchUpd s p.reviews)
              rw [hw] at hperm2
              have hpag2 : s2.pages = ps := by rw [hc.1, hpag1]
              have hgood2 : ∀ q ∈ s2.pages, Good q := by
                rw [hpag2]
                rw [hpag1] at hgood1
                exact hgood1
              have hmf2 : s2.max_files = 0 := by rw [hc.2.2.2.1]; exact hmf1'
              have heof2' : s2.eof = false := by rw [heof2]; exact he1'
              have hlt2 : s2.pages.length < k := by rw [hpag2]; rw [hpag1] at hlt1; exact hlt1
              obtain ⟨ihe, ihperm, ihtot, ihpf, ihmf⟩ := ih s2 hgood2 hmf2 heof2' hlt2
              rw [hpag2] at ihperm ihtot
              refine ⟨ihe, ?_, ?_, ?_, ihmf⟩
              · refine ihperm.trans ?_
                rw [consumedReviews_cons p ps hprne]
                refine (List.Perm.append_right _ hperm2).trans ?_
                rw [ho1, hr1]
                simp [List.append_assoc]
              · rw [ihtot, hc.2.1, ht1, consumedReviews_cons p ps hprne]
                simp only [List.length_append]
                push_cast
                ring
              · rw [ihpf, hc.2.2.1, hpf1]
            · rw [if_neg hthr]
              obtain ⟨ihe, ihperm, ihtot, ihpf, ihmf⟩ :=
                ih (getbatchUpd s p.reviews) hgood1 hmf1' he1' hlt1
              rw [hpag1] at ihperm ihtot
              refine ⟨ihe, ?_, ?_, ?_, ihmf⟩
              · refine ihperm.trans ?_
                rw [consumedReviews_cons p ps hprne, ho1, hr1]
                simp [List.append_assoc]
              · rw [ihtot, ht1, consumedReviews_cons p ps hprne]
                simp only [List.length_append]
                push_cast
                ring
              · rw [ihpf, hpf1]

/-! ### End-to-end properties of `main_loop` -/

theorem seedTotal_fields (s0 sa : SplitState) :
    (seedTotal s0 sa).pages = sa.pages ∧ (seedTotal s0 sa).out = sa.out ∧
    (seedTotal s0 sa).reviews = sa.reviews ∧
    (seedTotal s0 sa).per_file = sa.per_file ∧
    (seedTotal s0 sa).max_files = sa.max_files ∧
    (seedTotal s0 sa).eof = sa.eof ∧
    (seedTotal s0 sa).total =
      ((s0.pages.headD emptyPage).total_reviews : Int) - sa.reviews.length := by
  simp [seedTotal]

theorem run_loop_consume (s : SplitState) : ∃ j,
    (run_loop s).1.pages = s.pages.drop j ∧
    ((run_loop s).1.out.flatten ++ (run_loop s).1.reviews).Perm
      (s.out.flatten ++ s.reviews ++ (s.pages.take j).flatMap Response.reviews) ∧
    (run_loop s).1.per_file = s.per_file ∧
    (run_loop s).1.max_files = s.max_files :=
  run_loopAux_consume (s.pages.length + 1) s

theorem run_loop_good (s : SplitState) (hgood : ∀ p ∈ s.pages, Good p)
    (hmf : s.max_files = 0) (he : s.eof = false) :
    (run_loop s).2 = none ∧
    ((run_loop s).1.out.flatten ++ (run_loop s).1.reviews).Perm
      (s.out.flatten ++ s.reviews ++ consumedReviews s.pages) ∧
    (run_loop s).1.total = s.total - (consumedReviews s.pages).length ∧
    (run_loop s).1.per_file = s.per_file ∧
    (run_loop s).1.max_files = 0 :=
  run_loopAux_good (s.pages.length + 1) s hgood hmf he (Nat.lt_succ_self _)

theorem main_loop_consume (sid pf mf : Nat) (pages : List Response) : ∃ j,
    (main_loop (initState sid pf mf pages)).1.pages = pages.drop j ∧
    ((main_loop (initState sid pf mf pages)).1.out.flatten ++
      (main_loop (initState sid pf mf pages)).1.reviews).Perm
      ((pages.take j).flatMap Response.reviews) ∧
    ((main_loop (initState sid pf mf pages)).2 = none →
      (main_loop (initState sid pf mf pages)).1.reviews = []) := by
  cases hnb : nextbatch (pages.headD emptyPage) with
  | error e =>
      have hg : getbatch (initState sid pf mf pages) = .error e :=
        getbatch_err _ e rfl hnb
      have hml : main_loop (initState sid pf mf pages) =
          (initState sid pf mf pages, some e) := by
        simp only [main_loop, hg]
        simp [initState, drainAux]
      rw [hml]
      exact ⟨0, by simp [initState], by simp [initState], by simp⟩
  | ok revs =>
      have hg : getbatch (initState sid pf mf pages) =
          .ok (!decide (revs.length = 0), getbatchUpd (initState sid pf mf pages) revs) :=
        getbatch_ok_upd _ revs rfl hnb
      have hml : main_loop (initState sid pf mf pages) =
          ((drainAux (run_loop (seedTotal (initState sid pf mf pages)
              (getbatchUpd (initState sid pf mf pages) revs))).1.reviews.length
            (run_loop (seedTotal (initState sid pf mf pages)
              (getbatchUpd (initState sid pf mf pages) revs))).1).1,
           match (drainAux (run_loop (seedTotal (initState sid pf mf pages)
              (getbatchUpd (initState sid pf mf pages) revs))).1.reviews.length
            (run_loop (seedTotal (initState sid pf mf pages)
              (getbatchUpd (initState sid pf mf pages) revs))).1).2 with
           | some e => some e
           | none => (run_loop (seedTotal (initState sid pf mf pages)
              (getbatchUpd (initState sid pf mf pages) revs))).2) := by
        simp only [main_loop, hg]
      obtain ⟨hsp, hso, hsr, hspf, hsmf, hseof, hstot⟩ :=
        seedTotal_fields (initState sid pf mf pages)
          (getbatchUpd (initState sid pf mf pages) revs)
      obtain ⟨hup, huo, hur, hupf, humf, hutot, hueof⟩ :=
        getbatchUpd_fields (initState sid pf mf pages) revs
      obtain ⟨j1, hrp, hrperm, hrpf, hrmf⟩ :=
        run_loop_consume (seedTotal (initState sid pf mf pages)
          (getbatchUpd (initState sid pf mf pages) revs))
      have hdc := drainAux_consume
        (run_loop (seedTotal (initState sid pf mf pages)
          (getbatchUpd (initState sid pf mf pages) revs))).1.reviews.length
        (run_loop (seedTotal (initState sid pf mf pages)
          (getbatchUpd (initState sid pf mf pages) revs))).1
      obtain ⟨hdp, hdperm, hdtot, hdpf, hdmf, hdnone⟩ := hdc
      rw [hml]
      refine ⟨j1 + 1, ?_, ?_, ?_⟩
      · rw [hdp, hrp, hsp, hup]
        simp only [initState]
        rw [← List.drop_one, List.drop_drop, Nat.add_comm]
      · refine hdperm.trans ?_
        refine hrperm.trans ?_
        rw [hso, hsr, hsp, huo, hur, hup]
        simp only [initState, List.flatten_nil, List.nil_append]
        cases hpg : pages with
        | nil =>
            have : revs = emptyPage.reviews := by
              rw [hpg] at hnb
              exact (nextbatch_ok _ revs (by simpa using hnb)).1
            rw [this]
            simp [emptyPage]
        | cons p ps =>
            have : revs = p.reviews := by
              rw [hpg] at hnb
              exact (nextbatch_ok _ revs (by simpa using hnb)).1
            rw [this]
            simp [List.append_assoc]
      · intro hfin
        cases hd2 : (drainAux (run_loop (seedTotal (initState sid pf mf pages)
            (getbatchUpd (initState sid pf mf pages) revs))).1.reviews.length
          (run_loop (seedTotal (initState sid pf mf pages)
            (getbatchUpd (initState sid pf mf pages) revs))).1).2 with
        | some e => rw [hd2] at hfin; cases hfin
        | none => exact hdnone hd2

theorem main_loop_good (sid pf : Nat) (pages : List Response)
    (hgood : ∀ p ∈ pages, Good p) (hpf : 1 ≤ pf) :
    (main_loop (initState sid pf 0 pages)).2 = none ∧
    ((main_loop (initState sid pf 0 pages)).1.out.flatten).Perm (consumedReviews pages) ∧
    (main_loop (initState sid pf 0 pages)).1.reviews = [] ∧
    (main_loop (initState sid pf 0 pages)).1.total =
      ((pages.headD emptyPage).total_reviews : Int) - (consumedReviews pages).length := by
  cases pages with
  | nil =>
      have hnb : nextbatch (([] : List Response).headD emptyPage) = .ok [] := by
        simp [nextbatch, emptyPage]
      have hg : getbatch (initState sid pf 0 []) =
          .ok (!decide (([] : List Review).length = 0),
            getbatchUpd (initState sid pf 0 []) []) :=
        getbatch_ok_upd _ [] rfl hnb
      simp only [main_loop, hg]
      have heofT : (seedTotal (initState sid pf 0 [])
          (getbatchUpd (initState sid pf 0 []) [])).eof = true := by
        simp [seedTotal, getbatchUpd]
      have hrl : run_loop (seedTotal (initState sid pf 0 [])
          (getbatchUpd (initState sid pf 0 []) [])) =
          (seedTotal (initState sid pf 0 []) (getbatchUpd (initState sid pf 0 []) []), none) :=
        run_loopAux_succ_false _ _ _ (getbatch_of_eof _ heofT)
      rw [hrl]
      simp [seedTotal, getbatchUpd, initState, drainAux, consumedReviews, emptyPage]
  | cons p ps =>
      have hgp : Good p := hgood p (List.mem_cons_self p ps)
      have hnb : nextbatch ((p :: ps).headD emptyPage) = .ok p.reviews := by
        simpa using nextbatch_good p hgp
      have hg : getbatch (initState sid pf 0 (p :: ps)) =
          .ok (!decide (p.reviews.length = 0),
            getbatchUpd (initState sid pf 0 (p :: ps)) p.reviews) :=
        getbatch_ok_upd _ p.reviews rfl hnb
      simp only [main_loop, hg]
      obtain ⟨hsp, hso, hsr, hspf, hsmf, hseof, hstot⟩ :=
        seedTotal_fields (initState sid pf 0 (p :: ps))
          (getbatchUpd (initState sid pf 0 (p :: ps)) p.reviews)
      obtain ⟨hup, huo, hur, hupf, humf, hutot, hueof⟩ :=
        getbatchUpd_fields (initState sid pf 0 (p :: ps)) p.reviews
      have hsbp : (seedTotal (initState sid pf 0 (p :: ps))
          (getbatchUpd (initState sid pf 0 (p :: ps)) p.reviews)).pages = ps := by
        rw [hsp, hup]
        simp [initState]
      have hsbr : (seedTotal (initState sid pf 0 (p :: ps))
          (getbatchUpd (initState sid pf 0 (p :: ps)) p.reviews)).reviews = p.reviews := by
        rw [hsr, hur]
        simp [initState]
      have hsbo : (seedTotal (initState sid pf 0 (p :: ps))
          (getbatchUpd (initState sid pf 0 (p :: ps)) p.reviews)).out = [] := by
        rw [hso, huo]
        simp [initState]
      have hsbpf : (seedTotal (initState sid pf 0 (p :: ps))
          (getbatchUpd (initState sid pf 0 (p :: ps)) p.reviews)).per_file = pf := by
        rw [hspf, hupf]
        simp [initState]
      have hsbmf : (seedTotal (initState sid pf 0 (p :: ps))
          (getbatchUpd (initState sid pf 0 (p :: ps)) p.reviews)).max_files = 0 := by
        rw [hsmf, humf]
        simp [initState]
      have hsbtot : (seedTotal (initState sid pf 0 (p :: ps))
          (getbatchUpd (initState sid pf 0 (p :: ps)) p.reviews)).total =
          (p.total_reviews : Int) - p.reviews.length := by
        rw [hstot, hur]
        simp [initState]
      by_cases hpr : p.reviews.length = 0
      · have hrnil : p.reviews = [] := List.eq_nil_of_length_eq_zero hpr
        have heofT : (seedTotal (initState sid pf 0 (p :: ps))
            (getbatchUpd (initState sid pf 0 (p :: ps)) p.reviews)).eof = true := by
          rw [hseof, hueof]
          simp [hpr]
        have hrl : run_loop (seedTotal (initState sid pf 0 (p :: ps))
            (getbatchUpd (initState sid pf 0 (p :: ps)) p.reviews)) =
            (seedTotal (initState sid pf 0 (p :: ps))
              (getbatchUpd (initState sid pf 0 (p :: ps)) p.reviews), none) :=
          run_loopAux_succ_false _ _ _ (getbatch_of_eof _ heofT)
        rw [hrl]
        simp only
        have hlen0 : (seedTotal (initState sid pf 0 (p :: ps))
            (getbatchUpd (initState sid pf 0 (p :: ps)) p.reviews)).reviews.length = 0 := by
          rw [hsbr, hpr]
        rw [hlen0]
        have hrev0 : (seedTotal (initState sid pf 0 (p :: ps))
            (getbatchUpd (initState sid pf 0 (p :: ps)) p.reviews)).reviews = [] := by
          rw [hsbr]
          exact hrnil
        have hdr : drainAux 0 (seedTotal (initState sid pf 0 (p :: ps))
            (getbatchUpd (initState sid pf 0 (p :: ps)) p.reviews)) =
            (seedTotal (initState sid pf 0 (p :: ps))
              (getbatchUpd (initState sid pf 0 (p :: ps)) p.reviews), none) := by
          simp [drainAux, hrev0]
        rw [hdr]
        refine ⟨rfl, ?_, ?_, ?_⟩
        · rw [hsbo, consumedReviews_cons_nil p ps hrnil]
          simp
        · simp [seedTotal, getbatchUpd, initState, hrnil]
        · rw [hsbtot, consumedReviews_cons_nil p ps hrnil, hrnil]
          simp
      · have hprne : p.reviews ≠ [] := by
          intro h0
          exact hpr (by rw [h0]; rfl)
        have heofF : (seedTotal (initState sid pf 0 (p :: ps))
            (getbatchUpd (initState sid pf 0 (p :: ps)) p.reviews)).eof = false := by
          rw [hseof, hueof]
          simp [hpr]
        have hgood' : ∀ q ∈ (seedTotal (initState sid pf 0 (p :: ps))
            (getbatchUpd (initState sid pf 0 (p :: ps)) p.reviews)).pages, Good q := by
          rw [hsbp]
          intro q hq
          exact hgood q (List.mem_cons_of_mem p hq)
        obtain ⟨hrl2, hrlperm, hrltot, hrlpf, hrlmf⟩ :=
          run_loop_good _ hgood' hsbmf heofF
        have hdg : (drainAux (run_loop (seedTotal (initState sid pf 0 (p :: ps))
            (getbatchUpd (initState sid pf 0 (p :: ps)) p.reviews))).1.reviews.length
            (run_loop (seedTotal (initState sid pf 0 (p :: ps))
              (getbatchUpd (initState sid pf 0 (p :: ps)) p.reviews))).1).2 = none :=
          drainAux_good _ _ (by rw [hrlpf, hsbpf]; exact hpf) hrlmf (Nat.le_refl _)
        obtain ⟨hdp, hdperm, hdtot, hdpf, hdmf, hdnone⟩ :=
          drainAux_consume (run_loop (seedTotal (initState sid pf 0 (p :: ps))
            (getbatchUpd (initState sid pf 0 (p :: ps)) p.reviews))).1.reviews.length
            (run_loop (seedTotal (initState sid pf 0 (p :: ps))
              (getbatchUpd (initState sid pf 0 (p :: ps)) p.reviews))).1
        have hfinrev := hdnone hdg
        refine ⟨?_, ?_, hfinrev, ?_⟩
        · simp only [hdg]
          exact hrl2
        · have h1 := hdperm
          rw [hfinrev, List.append_nil] at h1
          refine h1.trans ?_
          refine hrlperm.trans ?_
          rw [hsbo, hsbr, hsbp, consumedReviews_cons p ps hprne]
          simp
        · rw [hdtot, hrltot, hsbp, hsbtot, consumedReviews_cons p ps hprne]
          simp only [List.length_append, List.headD_cons]
          push_cast
          ring

/-! ### Properties of the duplicate table -/

theorem lookup_observe (m : List (String × Nat)) (i j : String) :
    List.lookup i (observe m j) =
      if i = j then
        (match List.lookup i m with
         | some v => some (v + 1)
         | none => some 0)
      else List.lookup i m := by
  induction m with
  | nil =>
      by_cases h : i = j
      · simp [observe, List.lookup, h]
      · have hb : (i == j) = false := beq_eq_false_iff_ne.mpr h
        simp [observe, List.lookup, h, hb]
  | cons kv rest ih =>
      obtain ⟨k, v⟩ := kv
      by_cases hkj : k = j
      · subst hkj
        by_cases hij : i = k
        · subst hij
          simp [observe, List.lookup]
        · have hb : (i == k) = false := beq_eq_false_iff_ne.mpr hij
          simp [observe, List.lookup, hij, hb]
      · by_cases hik : i = k
        · subst hik
          have hij : ¬ i = j := hkj
          simp [observe, List.lookup, hkj, hij]
        · have hb : (i == k) = false := beq_eq_false_iff_ne.mpr hik
          simp [observe, List.lookup, hkj, hik, hb, ih]

theorem lookup_count_id (i : String) : ∀ (revs : List Review) (m : List (String × Nat)),
    List.lookup i (count_id_frequency revs m) =
      match List.lookup i m with
      | some v => some (v + (revs.map Review.id).count i)
      | none =>
          if (revs.map Review.id).count i = 0 then none
          else some ((revs.map Review.id).count i - 1) := by
  intro revs
  induction revs with
  | nil =>
      intro m
      simp only [count_id_frequency, List.foldl_nil, List.map_nil, List.count_nil]
      cases List.lookup i m <;> simp
  | cons r rs ih =>
      intro m
      have hstep : count_id_frequency (r :: rs) m = count_id_frequency rs (observe m r.id) :=
        rfl
      rw [hstep, ih (observe m r.id), lookup_observe m i r.id]
      by_cases hir : i = r.id
      · simp only [hir, if_pos rfl, List.map_cons, List.count_cons, beq_self_eq_true,
          if_pos, reduceIte]
        cases hm : List.lookup r.id m with
        | some v =>
            simp only
            congr 1
            omega
        | none =>
            have hne : ¬ ((rs.map Review.id).count r.id + 1 = 0) := by omega
            simp only [hne, if_neg, reduceIte]
            congr 1
            omega
      · have hbeq : (r.id == i) = false := by
          simp [Ne.symm hir]
        simp [hir, List.count_cons, hbeq]

theorem observe_keys_mem (m : List (String × Nat)) (i a : String) :
    a ∈ (observe m i).map Prod.fst ↔ a ∈ m.map Prod.fst ∨ a = i := by
  induction m with
  | nil => simp [observe]
  | cons kv rest ih =>
      obtain ⟨k, v⟩ := kv
      by_cases hki : k = i
      · subst hki
        simp [observe]
        tauto
      · simp [observe, hki, ih]
        tauto

theorem observe_keys_nodup (m : List (String × Nat)) (i : String)
    (h : (m.map Prod.fst).Nodup) : ((observe m i).map Prod.fst).Nodup := by
  induction m with
  | nil => simp [observe]
  | cons kv rest ih =>
      obtain ⟨k, v⟩ := kv
      simp only [List.map_cons, List.nodup_cons] at h
      by_cases hki : k = i
      · subst hki
        simpa [observe] using h
      · simp only [observe, hki, if_neg, reduceIte, List.map_cons, List.nodup_cons]
        refine ⟨?_, ih h.2⟩
        intro hmem
        rcases (observe_keys_mem rest i k).mp hmem with h1 | h2
        · exact h.1 h1
        · exact hki h2

theorem count_id_keys_nodup (revs : List Review) : ∀ m : List (String × Nat),
    (m.map Prod.fst).Nodup → ((count_id_frequency revs m).map Prod.fst).Nodup := by
  induction revs with
  | nil => intro m h; exact h
  | cons r rs ih =>
      intro m h
      exact ih (observe m r.id) (observe_keys_nodup m r.id h)

theorem lookup_of_mem_nodup : ∀ (m : List (String × Nat)) (p : String × Nat),
    (m.map Prod.fst).Nodup → p ∈ m → List.lookup p.1 m = some p.2 := by
  intro m
  induction m with
  | nil => intro p _ hmem; cases hmem
  | cons kv rest ih =>
      intro p hnd hmem
      obtain ⟨k, v⟩ := kv
      simp only [List.map_cons, List.nodup_cons] at hnd
      rcases List.mem_cons.mp hmem with rfl | hmem'
      · simp [List.lookup]
      · have hp1 : p.1 ∈ rest.map Prod.fst := List.mem_map_of_mem Prod.fst hmem'
        have hne : (p.1 == k) = false := by
          simp only [beq_eq_false_iff_ne, ne_eq]
          intro h
          rw [h] at hp1
          exact hnd.1 hp1
        simp only [List.lookup, hne]
        exact ih p hnd.2 hmem'

/-! ### The claims -/

/-- C1: the claim says every written batch is sorted by `date` descending
with `id` ascending inside each maximal equal-date run. The code violates
it: `sort_reviews` bounds both loops by `begin + end < n` with `end` an
absolute index, so an equal-date run that starts past the front is cut
short or skipped. On a run delivering dates `2,1,1` with ids `z,c,a` and
`per_file = 3`, the single written batch keeps ids `c,a` out of order
inside the date-`1` run (the comment in the source promises the
whole same-date portion is sorted; a correct bound `end < n` would have
produced `z,a,c`). -/
theorem c1_equal_date_run_left_unsorted :
    (main_loop (initState 1 3 0 c1pages)).2 = none ∧
    (main_loop (initState 1 3 0 c1pages)).1.out =
      [[mkRev "z" "2", mkRev "c" "1", mkRev "a" "1"]] ∧
    ¬ batchOrdered [mkRev "z" "2", mkRev "c" "1", mkRev "a" "1"] := by
  decide

/-- C2: the claim says a run with `max files = 1` and more records than one
batch holds writes exactly one batch and discards the excess. The code
violates it: the `finally` drain loop ignores `max_files`, writes a second
batch with the excess, and then fails the source's own assertion
`assert not self.file_i > self.max_files` (here `file_i = 2 > 1`). -/
theorem c2_drain_exceeds_max_files_and_asserts :
    (main_loop (initState 1 2 1 c2pages)).2 = some RunErr.assertionError ∧
    (main_loop (initState 1 2 1 c2pages)).1.out.length = 2 := by
  decide

/-- C3, counterexample: on a run with `per_file = 2, max_files = 1` and six
records delivered, the drain dies on the `writebatch` assertion after two
batches, so records `e,f` were appended to the buffer but never written —
the concatenation of the written batches is not a permutation of the
appended records. -/
theorem c3_counterexample_crash_drops_appended_records :
    mkRev "e" "1" ∈ (goodPage 6 c3revs).reviews ∧
    mkRev "e" "1" ∉ (main_loop (initState 1 2 1 c3pages)).1.out.flatten ∧
    ¬ ((main_loop (initState 1 2 1 c3pages)).1.out.flatten).Perm
      ((goodPage 6 c3revs).reviews) := by
  decide

/-- C3, amended: for every run that finishes without an error, the
concatenation of the written batches in file-index order is a permutation
(no record dropped, duplicated or mutated) of exactly the records the
consumed pages appended to the buffer. -/
theorem c3_concat_of_batches_matches_appended (sid pf mf : Nat) (pages : List Response)
    (h : (main_loop (initState sid pf mf pages)).2 = none) :
    ∃ j, (main_loop (initState sid pf mf pages)).1.pages = pages.drop j ∧
      ((main_loop (initState sid pf mf pages)).1.out.flatten).Perm
        ((pages.take j).flatMap Response.reviews) := by
  obtain ⟨j, h1, h2, h3⟩ := main_loop_consume sid pf mf pages
  refine ⟨j, h1, ?_⟩
  have hrev := h3 h
  rw [hrev, List.append_nil] at h2
  exact h2

theorem c3_concat_of_batches_matches_appended_witness :
    (main_loop (initState 1 5 0 w3pages)).2 = none ∧
    ∃ j, (main_loop (initState 1 5 0 w3pages)).1.pages = w3pages.drop j ∧
      ((main_loop (initState 1 5 0 w3pages)).1.out.flatten).Perm
        ((w3pages.take j).flatMap Response.reviews) :=
  ⟨by decide, c3_concat_of_batches_matches_appended 1 5 0 w3pages (by decide)⟩

/-- C4, counterexample: the claim says the first cleanup sets the `flushed`
flag and a second cleanup invocation is a no-op. The code never reads or
writes `flushed` (it is declared and zero-initialised only), and `__del__`
reports unconditionally: after one cleanup the flag is still `false` and a
second invocation emits the same reports again. -/
theorem c4_counterexample_cleanup_not_guarded :
    (del_run c4state).1.flushed = false ∧ (del_run (del_run c4state).1).2 ≠ [] := by
  decide

/-- C4, amended: terminal cleanup mutates no state — in particular it never
sets `flushed` — and invoking it again yields exactly the same reports
rather than a no-op; it runs once per run only because the runtime invokes
the destructor at most once per object. -/
theorem c4_cleanup_stateless_and_repeatable (s : SplitState) :
    (del_run s).1 = s ∧ (del_run s).1.flushed = s.flushed ∧
    (del_run (del_run s).1).2 = (del_run s).2 :=
  ⟨rfl, rfl, rfl⟩

/-- C5: one `writebatch` extraction hands off a batch of exactly
`min(per_file, len)` records — so exactly `n = per_file` of them when the
buffer holds at least `per_file`, and all remaining records otherwise
(the drain case) — consisting precisely of the buffer's front prefix of
that length (reordered only by the in-batch sort), and removes exactly
that prefix from the front of the buffer. -/
theorem c5_extract_returns_and_removes_front_prefix (s : SplitState) :
    ∃ b, (writebatch s).1.out = s.out ++ [b] ∧
      b.length = min s.per_file s.reviews.length ∧
      b.Perm (s.reviews.take (min s.per_file s.reviews.length)) ∧
      (writebatch s).1.reviews = s.reviews.drop (min s.per_file s.reviews.length) := by
  refine ⟨_, writebatch_out s, ?_, ?_, writebatch_reviews s⟩
  · rw [List.length_take, sort_reviews_length]
    omega
  · exact sort_reviews_take_perm s.reviews (min s.per_file s.reviews.length)

/-- C6: after observing a sequence of records starting from the empty
table, the duplicate counter of an identifier is its number of occurrences
minus one (absent identifiers have no entry); hence with no repeated
identifiers every counter in the table is 0. -/
theorem c6_counter_is_occurrences_minus_one (revs : List Review) (i : String) :
    (List.lookup i (count_id_frequency revs []) =
      if (revs.map Review.id).count i = 0 then none
      else some ((revs.map Review.id).count i - 1)) ∧
    ((revs.map Review.id).Nodup → ∀ p ∈ count_id_frequency revs [], p.2 = 0) := by
  constructor
  · have h := lookup_count_id i revs []
    simpa [List.lookup] using h
  · intro hnd p hp
    have hknd : ((count_id_frequency revs []).map Prod.fst).Nodup :=
      count_id_keys_nodup revs [] (by simp)
    have hlk := lookup_of_mem_nodup _ p hknd hp
    have h := lookup_count_id p.1 revs []
    rw [hlk] at h
    simp only [List.lookup] at h
    by_cases hc : (revs.map Review.id).count p.1 = 0
    · rw [if_pos hc] at h
      cases h
    · rw [if_neg hc] at h
      have hle := List.nodup_iff_count_le_one.mp hnd p.1
      injection h with h2
      omega

theorem c6_counter_is_occurrences_minus_one_witness :
    (c1reviews.map Review.id).Nodup ∧
    ∀ p ∈ count_id_frequency c1reviews [], p.2 = 0 :=
  ⟨by decide, (c6_counter_is_occurrences_minus_one c1reviews "z").2 (by decide)⟩

/-- C7: `nextbatch` fails with `requestError` whenever the transport status
is non-success; on a success status it fails with `protocolError` when the
envelope reports failure, and when the declared count disagrees with the
records present; and any such failure is fatal to the run: the run ends at
once with that error, nothing consumed, written, or retried (the final
state is the initial one, its page stream untouched). -/
theorem c7_nextbatch_errors_are_fatal (r : Response) :
    (r.status_ok = false → nextbatch r = .error .requestError) ∧
    (r.status_ok = true → r.success = false → nextbatch r = .error .protocolError) ∧
    (r.status_ok = true → r.success = true → r.num_reviews ≠ r.reviews.length →
      nextbatch r = .error .protocolError) ∧
    (∀ e, nextbatch r = .error e → ∀ (sid pf mf : Nat) (ps : List Response),
      main_loop (initState sid pf mf (r :: ps)) =
        (initState sid pf mf (r :: ps), some e)) := by
  refine ⟨?_, ?_, ?_, ?_⟩
  · intro h
    simp [nextbatch, h]
  · intro h1 h2
    simp [nextbatch, h1, h2]
  · intro h1 h2 h3
    simp [nextbatch, h1, h2, h3]
  · intro e he sid pf mf ps
    have hg : getbatch (initState sid pf mf (r :: ps)) = .error e :=
      getbatch_err _ e rfl (by simpa using he)
    simp only [main_loop, hg]
    simp [initState, drainAux]

theorem c7_nextbatch_errors_are_fatal_witness :
    nextbatch c7resp = .error .requestError ∧
    main_loop (initState 1 5 0 [c7resp]) =
      (initState 1 5 0 [c7resp], some RunErr.requestError) := by
  have h := c7_nextbatch_errors_are_fatal c7resp
  exact ⟨h.1 rfl, h.2.2.2 RunErr.requestError (h.1 rfl) 1 5 0 []⟩

/-- C8: extraction sorts only the prefix it extracts: `sort_reviews n`
leaves every record at position `n` or beyond exactly where it was, and
after the extraction the remaining buffer is exactly the original buffer
with its front prefix removed — same records, same relative order. -/
theorem c8_sort_confined_to_extracted_prefix :
    (∀ (l : List Review) (n : Nat), (sort_reviews l n).drop n = l.drop n) ∧
    ∀ s : SplitState, (writebatch s).1.reviews =
      s.reviews.drop (min s.per_file s.reviews.length) :=
  ⟨sort_reviews_drop, writebatch_reviews⟩

/-- C9: whenever the first page declares more records than the stream
actually delivers (all pages well-formed, `max_files = 0`, `per_file ≥ 1`),
the run completes without error, writes exactly the delivered records, ends
with a nonzero `total`, and the terminal cleanup reports a warning — a
diagnostic that does not change the output. -/
theorem c9_declared_exceeds_delivered_is_nonfatal (sid pf : Nat) (pages : List Response)
    (hgood : ∀ p ∈ pages, Good p) (hpf : 1 ≤ pf)
    (hlt : ((consumedReviews pages).length : Int) < (pages.headD emptyPage).total_reviews) :
    (main_loop (initState sid pf 0 pages)).2 = none ∧
    ((main_loop (initState sid pf 0 pages)).1.out.flatten).Perm (consumedReviews pages) ∧
    (main_loop (initState sid pf 0 pages)).1.total ≠ 0 ∧
    del_reports (main_loop (initState sid pf 0 pages)).1 ≠ [] := by
  obtain ⟨h1, h2, h3, h4⟩ := main_loop_good sid pf pages hgood hpf
  have hne : (main_loop (initState sid pf 0 pages)).1.total ≠ 0 := by
    rw [h4]
    omega
  refine ⟨h1, h2, hne, ?_⟩
  simp [del_reports, hne]

theorem c9_declared_exceeds_delivered_is_nonfatal_witness :
    (main_loop (initState 1 5 0 c9pages)).2 = none ∧
    ((main_loop (initState 1 5 0 c9pages)).1.out.flatten).Perm (consumedReviews c9pages) ∧
    (main_loop (initState 1 5 0 c9pages)).1.total ≠ 0 ∧
    del_reports (main_loop (initState 1 5 0 c9pages)).1 ≠ [] :=
  c9_declared_exceeds_delivered_is_nonfatal 1 5 c9pages (by decide) (by decide) (by decide)

/-- C10: once the end-of-stream flag is set, a further `getbatch` returns
`False` without touching anything: no page is consumed and the buffer, the
duplicate table, the running total and the file index are exactly as
before (the returned state is the input state itself). -/
theorem c10_getbatch_after_eof_is_noop (s : SplitState) (h : s.eof = true) :
    getbatch s = .ok (false, s) ∧
    ∀ (b : Bool) (s' : SplitState), getbatch s = .ok (b, s') →
      b = false ∧ s'.reviews = s.reviews ∧ s'.ids = s.ids ∧ s'.total = s.total ∧
      s'.file_i = s.file_i ∧ s'.pages = s.pages := by
  have hg := getbatch_of_eof s h
  refine ⟨hg, ?_⟩
  intro b s' h'
  rw [hg] at h'
  simp only [Except.ok.injEq, Prod.mk.injEq] at h'
  obtain ⟨hb, hs⟩ := h'
  subst hs
  exact ⟨hb.symm, rfl, rfl, rfl, rfl, rfl⟩

theorem c10_getbatch_after_eof_is_noop_witness :
    c10state.eof = true ∧ getbatch c10state = .ok (false, c10state) :=
  ⟨rfl, (c10_getbatch_after_eof_is_noop c10state rfl).1⟩
